import Mathlib

/-
Verification of the DomTal template engine (src/lib/DomTal.js) against its
design document.  The JavaScript source is shallowly embedded: each Lean
definition follows one function of the source, with JavaScript values,
exceptions and in-place mutation made explicit (exceptions become Except,
the DOM heap becomes an explicit list of node records).
-/

set_option autoImplicit false

deriving instance DecidableEq for Except

namespace DomTalSpec

-- ---------------------------------------------------------------------------
-- JavaScript values
-- ---------------------------------------------------------------------------

/-- Model of the JavaScript values the engine manipulates.  The two sentinel
objects DomTal.NOTHING and DomTal.DEFAULT are empty objects compared by
identity in the source; they get their own constructors.  Functions and other
objects are represented by opaque identifiers. -/
inductive JSVal where
  | undef
  | jsNull
  | bool (b : Bool)
  | num (n : Int)
  | str (s : String)
  | nothingS
  | defaultS
  | func (id : Nat)
  | obj (id : Nat)
  deriving DecidableEq, Repr

/-- JavaScript truthiness: undefined, null, false, 0 and the empty string are
falsy; every object (including the two sentinels) is truthy. -/
def truthy : JSVal → Bool
  | JSVal.undef => false
  | JSVal.jsNull => false
  | JSVal.bool b => b
  | JSVal.num n => n != 0
  | JSVal.str s => s != ""
  | JSVal.nothingS => true
  | JSVal.defaultS => true
  | JSVal.func _ => true
  | JSVal.obj _ => true

/-- String coercion used when a value is pushed into the interpolation output
array and joined (Array.prototype.join applies the usual JS coercion). -/
def jsToString : JSVal → String
  | JSVal.undef => "undefined"
  | JSVal.jsNull => "null"
  | JSVal.bool b => if b then "true" else "false"
  | JSVal.num n => toString n
  | JSVal.str s => s
  | JSVal.nothingS => "[object Object]"
  | JSVal.defaultS => "[object Object]"
  | JSVal.func _ => "function"
  | JSVal.obj _ => "[object Object]"

/-- The character class matched by the JavaScript regex token \s (restricted
to the ASCII range, which is all the source ever feeds it). -/
def jsSpace (c : Char) : Bool :=
  c = ' ' || c = '\t' || c = '\n' || c = '\r' || c = '\x0c' || c = '\x0b'

/-- The JavaScript regex word class \w. -/
def wordChar (c : Char) : Bool :=
  c.isAlphanum || c = '_'

/-- Strip leading and trailing \s characters; used to model the anchored
keyword regexes of DomTal.prototype.tales. -/
def jsTrim (s : String) : String :=
  String.mk (((s.toList.dropWhile jsSpace).reverse.dropWhile jsSpace).reverse)

-- ---------------------------------------------------------------------------
-- Tales evaluator (DomTal.prototype.tales, DomTal.js lines 1148-1193)
-- ---------------------------------------------------------------------------

/-- Errors thrown while evaluating a tales expression chain. -/
inductive TalesErr where
  | emptyExpr
  | unknownMod (name : String)
  | undefinedValue
  | invalidExpr
  | evalErr (msg : String)
  deriving DecidableEq, Repr

/-- Character class of the modifier-name capture in the regex
matching a tales modifier, [\w_-]+ . -/
def wordDashChar (c : Char) : Bool :=
  c.isAlphanum || c = '_' || c = '-'

/-- Embedding of the regex that detects a leading tales modifier
(whitespace, a [\w_-]+ name, whitespace, then a colon).  Returns the
modifier name together with the text after the whole match, exactly as
exp.substr(m[0].length) does in the source. -/
def matchModName (cs : List Char) : Option (String × String) :=
  let cs1 := cs.dropWhile jsSpace
  let nm := cs1.takeWhile wordDashChar
  let rest := cs1.dropWhile wordDashChar
  if nm.isEmpty then none
  else
    match rest.dropWhile jsSpace with
    | ':' :: tail => some (String.mk nm, String.mk tail)
    | _ => none

/-- The pluggable modifier environment: defMod is this.defMod (the js
modifier by default) and mods is the name-indexed modifiers object. -/
structure ModEnv where
  defMod : String → Except TalesErr JSVal
  mods : String → Option (String → Except TalesErr JSVal)

/-- The alternation loop of DomTal.prototype.tales.  The two accumulator
arguments are the local variables result (initially undefined) and error
(initially unset) of the source.  Per alternative: the keyword checks run
first, then modifier resolution (an unknown modifier throws out of the whole
call), then the modifier is invoked inside try/catch; a thrown error is
recorded and the loop continues; a result breaks the loop only when truthy
(the source tests if result, i.e. truthiness).  After the loop the value is
returned unless it is undefined, in which case the recorded error (or a
generic undefined-value error) is thrown. -/
def talesLoop (env : ModEnv) : List String → JSVal → Option TalesErr → Except TalesErr JSVal
  | [], result, error =>
    if result = JSVal.undef then
      match error with
      | some e => Except.error e
      | none => Except.error TalesErr.undefinedValue
    else Except.ok result
  | exp :: rest, result, error =>
    if jsTrim exp = "default" then Except.ok JSVal.defaultS
    else if jsTrim exp = "nothing" then Except.ok JSVal.nothingS
    else
      match matchModName exp.toList with
      | some (m, tail) =>
        match env.mods m with
        | none => Except.error (TalesErr.unknownMod m)
        | some md =>
          match md tail with
          | Except.error e => talesLoop env rest result (some e)
          | Except.ok v => if truthy v then Except.ok v else talesLoop env rest v error
      | none =>
        match env.defMod exp with
        | Except.error e => talesLoop env rest result (some e)
        | Except.ok v => if truthy v then Except.ok v else talesLoop env rest v error

/-- DomTal.prototype.tales: an empty chain throws, otherwise the alternation
loop runs with result = undefined and no recorded error. -/
def tales (env : ModEnv) (exps : List String) : Except TalesErr JSVal :=
  if exps.isEmpty then Except.error TalesErr.emptyExpr
  else talesLoop env exps JSVal.undef none

/-- What one alternative contributes to the loop, as a derived view used to
state theorems: a keyword returns a sentinel at once, an unknown modifier is
fatal, otherwise the resolved modifier either yields a value or raises. -/
inductive AltStep where
  | sentinel (v : JSVal)
  | fatal (e : TalesErr)
  | value (v : JSVal)
  | raised (e : TalesErr)
  deriving DecidableEq, Repr

/-- Classify a single alternative with the same branching as the loop body. -/
def altStep (env : ModEnv) (exp : String) : AltStep :=
  if jsTrim exp = "default" then AltStep.sentinel JSVal.defaultS
  else if jsTrim exp = "nothing" then AltStep.sentinel JSVal.nothingS
  else
    match matchModName exp.toList with
    | some (m, tail) =>
      match env.mods m with
      | none => AltStep.fatal (TalesErr.unknownMod m)
      | some md =>
        match md tail with
        | Except.error e => AltStep.raised e
        | Except.ok v => AltStep.value v
    | none =>
      match env.defMod exp with
      | Except.error e => AltStep.raised e
      | Except.ok v => AltStep.value v

/-- Read a run of decimal digits as a number. -/
def digitsToNatAux : Nat → List Char → Option Nat
  | acc, [] => some acc
  | acc, c :: rest =>
    if c.isDigit then digitsToNatAux (10 * acc + (c.toNat - 48)) rest
    else none

/-- The default js modifier restricted to the inputs our concrete chains use:
a nonnegative decimal integer literal evaluates to the corresponding number
(the actual modifier compiles arbitrary JavaScript with new Function, which
is external to this embedding); anything else raises an evaluation error, as
an unresolvable expression does. -/
def litMod (s : String) : Except TalesErr JSVal :=
  let cs := (jsTrim s).data
  if cs.isEmpty then Except.error (TalesErr.evalErr s)
  else
    match digitsToNatAux 0 cs with
    | some n => Except.ok (JSVal.num (Int.ofNat n))
    | none => Except.error (TalesErr.evalErr s)

/-- A concrete modifier environment: integer-literal default modifier and no
named modifiers registered. -/
def litEnv : ModEnv :=
  { defMod := litMod, mods := fun _ => none }

-- ---------------------------------------------------------------------------
-- Variable scope stack (DomTal.prototype.get / set, DomTal.js lines 771-820)
-- ---------------------------------------------------------------------------

/-- One entry of this.stack.  The source pushes plain objects, but set can
assign any value as the frame, so a frame is either an object (an association
list of own properties) or an arbitrary primitive value. -/
inductive FrameVal where
  | objFrame (fields : List (String × JSVal))
  | primFrame (v : JSVal)
  deriving DecidableEq, Repr

/-- A JavaScript error that escapes the scope-stack operations (the in
operator applied to a primitive throws a TypeError). -/
inductive JsErr where
  | typeError
  deriving DecidableEq, Repr

/-- The test name in frame, for one frame. -/
def frameHas (f : FrameVal) (name : String) : Except JsErr Bool :=
  match f with
  | FrameVal.objFrame fields => Except.ok ((fields.map Prod.fst).contains name)
  | FrameVal.primFrame (JSVal.obj _) => Except.ok false
  | FrameVal.primFrame (JSVal.func _) => Except.ok false
  | FrameVal.primFrame JSVal.nothingS => Except.ok false
  | FrameVal.primFrame JSVal.defaultS => Except.ok false
  | FrameVal.primFrame _ => Except.error JsErr.typeError

/-- Property read frame[name] on one frame (undefined when absent). -/
def frameRead (f : FrameVal) (name : String) : JSVal :=
  match f with
  | FrameVal.objFrame fields =>
    match fields.find? (fun p => p.fst = name) with
    | some p => p.snd
    | none => JSVal.undef
  | FrameVal.primFrame _ => JSVal.undef

/-- The countdown loop of DomTal.prototype.get: idx walks from the top of the
stack (the last element) down; the first frame containing the name wins.
Recursion over the reversed stack realises the idx-- countdown. -/
def getVarAux (name : String) (dflt : JSVal) : List FrameVal → Except JsErr JSVal
  | [] => Except.ok dflt
  | f :: rest =>
    match frameHas f name with
    | Except.error e => Except.error e
    | Except.ok true => Except.ok (frameRead f name)
    | Except.ok false => getVarAux name dflt rest

/-- DomTal.prototype.get: search the stack from the innermost frame to the
outermost, returning the optional default (undefined at most call sites) when
the name is nowhere bound. -/
def getVar (stack : List FrameVal) (name : String) (dflt : JSVal) : Except JsErr JSVal :=
  getVarAux name dflt stack.reverse

/-- Assignment stack[len-1] = v.  In JavaScript the write is lost on an empty
array index -1, so the empty stack is returned unchanged. -/
def setLastFrame (stack : List FrameVal) (v : FrameVal) : List FrameVal :=
  if stack.isEmpty then stack else stack.dropLast ++ [v]

/-- DomTal.prototype.set invoked with two arguments (name and value).  The
source executes stack[len-1] = value and returns: the name argument is never
used, so the whole innermost frame is replaced by the value. -/
def setTwoArgs (stack : List FrameVal) (_name : String) (value : FrameVal) : List FrameVal :=
  setLastFrame stack value

/-- DomTal.prototype.set invoked with a single argument: the innermost frame
is replaced by it (stack[len-1] = name). -/
def setOneArg (stack : List FrameVal) (value : FrameVal) : List FrameVal :=
  setLastFrame stack value

-- ---------------------------------------------------------------------------
-- process scope discipline (DomTal.prototype.process, DomTal.js lines 836-892)
-- ---------------------------------------------------------------------------

/-- this.stack.push({}) at the top of process. -/
def pushFrame (stack : List FrameVal) : List FrameVal :=
  stack ++ [FrameVal.objFrame []]

/-- this.stack.pop() at the bottom of process. -/
def popFrame (stack : List FrameVal) : List FrameVal :=
  stack.dropLast

/-- DomTal.prototype.process reduced to its effect on the scope stack: push a
fresh frame, run this.render (whose effect on the stack and possible thrown
exception are abstracted into the renderFn argument), then pop.  The source
has no try/finally around the render call, so when render throws, the pop
statement is never executed and the exception propagates. -/
def processNode (renderFn : List FrameVal → List FrameVal × Option TalesErr)
    (stack : List FrameVal) : List FrameVal × Option TalesErr :=
  let st1 := pushFrame stack
  let res := renderFn st1
  match res.snd with
  | none => (popFrame res.fst, none)
  | some e => (res.fst, some e)

-- ---------------------------------------------------------------------------
-- repeat metadata (repeat processor, DomTal.js lines 1470-1542)
-- ---------------------------------------------------------------------------

/-- The meta object data.repeat[item] maintained by the repeat processor.
The field called end in the source is endFlag here (end is a Lean keyword). -/
structure RepeatMeta where
  index : Nat
  number : Nat
  odd : Bool
  even : Bool
  start : Bool
  endFlag : Bool
  length : Nat
  deriving DecidableEq, Repr

/-- The meta object as initialised before the loop over the values: index 0,
number 1, odd false, even true, start true, end set to (len === 0). -/
def metaInit (len : Nat) : RepeatMeta :=
  { index := 0, number := 1, odd := false, even := true,
    start := true, endFlag := len = 0, length := len }

/-- The update block at the bottom of each loop iteration: index and number
are incremented, odd and even are flipped, start is cleared and end is set to
(number === len) using the freshly incremented number. -/
def metaStep (len : Nat) (m : RepeatMeta) : RepeatMeta :=
  let n := m.number + 1
  { index := m.index + 1, number := n, odd := !m.odd, even := !m.even,
    start := false, endFlag := n = len, length := m.length }

/-- The state of the meta object while the clone at zero-based position i is
being processed: the initial object stepped i times. -/
def metaAt (len : Nat) : Nat → RepeatMeta
  | 0 => metaInit len
  | i + 1 => metaStep len (metaAt len i)

-- ---------------------------------------------------------------------------
-- WeightedList registry (DomTal.js lines 531-603 and 1268-1286)
-- ---------------------------------------------------------------------------

/-- A registered processor: the procname field the source attaches to the
callback, plus a tag distinguishing successive registrations. -/
structure Proc where
  procname : String
  tag : Nat
  deriving DecidableEq, Repr

/-- The WeightedList internals: _items is an append-only store, _weights the
sorted weight list and _map the parallel list of indices into _items giving
the iteration order. -/
structure WList where
  items : List Proc
  weights : List Int
  wmap : List Nat
  deriving DecidableEq, Repr

/-- Array.prototype.splice(i, 0, a): insert at position i (clamped to the
length, as splice does). -/
def insertAt {α : Type} (l : List α) (i : Nat) (a : α) : List α :=
  l.take i ++ a :: l.drop i

/-- Array.prototype.splice(i, 1): delete the element at position i (a no-op
past the end, as splice clamps the start index). -/
def removeAt {α : Type} (l : List α) (i : Nat) : List α :=
  l.take i ++ l.drop (i + 1)

def emptyWList : WList :=
  { items := [], weights := [], wmap := [] }

/-- WeightedList.prototype.add: scan _weights for the first entry strictly
greater than the new weight; splice the weight and the index of the new item
in there, or push both at the end; the item itself is pushed onto _items. -/
def WList.add (wl : WList) (itm : Proc) (weight : Int) : WList :=
  match wl.weights.findIdx? (fun w => weight < w) with
  | some i =>
    { items := wl.items ++ [itm],
      weights := insertAt wl.weights i weight,
      wmap := insertAt wl.wmap i wl.items.length }
  | none =>
    { items := wl.items ++ [itm],
      weights := wl.weights ++ [weight],
      wmap := wl.wmap ++ [wl.items.length] }

/-- The scan of WeightedList.prototype.removeByName: walk the map positions
in order (the auxiliary index i counts the position reached) and report the
first whose item matches the name.  Reading items[_map[i]].procname when
_map[i] points past the end of _items dereferences undefined and throws. -/
def findByNameAux (items : List Proc) (name : String) :
    List Nat → Nat → Except JsErr (Option Nat)
  | [], _ => Except.ok none
  | k :: rest, i =>
    match items.get? k with
    | none => Except.error JsErr.typeError
    | some p =>
      if p.procname = name then Except.ok (some i)
      else findByNameAux items name rest (i + 1)

/-- WeightedList.prototype.removeByName.  On a match at map position i the
source executes items.splice(_map[1], 1) — the literal index 1, not i — then
_map.splice(i, 1) and _weights.splice(i, 1).  When _map has fewer than two
entries, _map[1] is undefined and splice coerces the start to 0. -/
def WList.removeByName (wl : WList) (name : String) : Except JsErr WList :=
  match findByNameAux wl.items name wl.wmap 0 with
  | Except.error e => Except.error e
  | Except.ok none => Except.ok wl
  | Except.ok (some i) =>
    let spliceIdx := (wl.wmap.get? 1).getD 0
    Except.ok
      { items := removeAt wl.items spliceIdx,
        weights := removeAt wl.weights i,
        wmap := removeAt wl.wmap i }

/-- What each / until visit, in order: items[_map[i]] for i = 0.._map.len-1,
with none standing for the undefined produced by a dangling index. -/
def WList.iterNames (wl : WList) : List (Option String) :=
  wl.wmap.map (fun k => (wl.items.get? k).map Proc.procname)

/-- DomTal.prototype.processor: remove any previous processor with the same
name, attach the name to the callback, then add it with the given priority. -/
def registerProc (wl : WList) (name : String) (tag : Nat) (priority : Int) :
    Except JsErr WList :=
  match wl.removeByName name with
  | Except.error e => Except.error e
  | Except.ok wl1 => Except.ok (wl1.add { procname := name, tag := tag } priority)

-- ---------------------------------------------------------------------------
-- ExpressionParser (DomTal.js lines 342-524)
-- ---------------------------------------------------------------------------

/-- Parser state: the expression characters and the scan position, mirroring
the exp / pos fields of DomTal.ExpressionParser. -/
structure PState where
  exp : List Char
  pos : Nat
  deriving DecidableEq, Repr

/-- Whether s occurs as a contiguous run in cs at offset i. -/
def subAt (cs s : List Char) (i : Nat) : Bool :=
  (cs.drop i).take s.length == s

/-- String.prototype.indexOf(s, start): position of the first occurrence of s
at or after start, none when absent. -/
def findSubIdx (cs s : List Char) (start : Nat) : Option Nat :=
  ((List.range (cs.length + 1)).filter
    (fun i => Nat.ble start i && subAt cs s i)).head?

/-- ExpressionParser.prototype.str: locate the next occurrence of s, demand
that every character between the scan position and it is a plain space, and
on success move the position past the occurrence. -/
def pstr (st : PState) (s : List Char) : Option PState :=
  match findSubIdx st.exp s st.pos with
  | none => none
  | some idx =>
    if ((st.exp.drop st.pos).take (idx - st.pos)).all (fun c => c = ' ') then
      some { st with pos := idx + s.length }
    else none

/-- ExpressionParser.prototype.consume: take up to len characters from the
scan position (clipped at the end of the input) and advance past them. -/
def pconsume (st : PState) (len : Nat) : PState × List Char :=
  let ret := (st.exp.drop st.pos).take len
  ({ st with pos := st.pos + ret.length }, ret)

/-- The character class excluded by the token regex of
ExpressionParser.prototype.tales: brackets, quotes, backslash, pipe,
semicolon, colon and comma. -/
def specialChar (c : Char) : Bool :=
  c = '(' || c = ')' || c = '{' || c = '}' || c = '[' || c = ']' ||
  c = '\'' || c = '"' || c = '\\' || c = '|' || c = ';' || c = ':' || c = ','

def plainChar (c : Char) : Bool :=
  !(specialChar c) && !(jsSpace c)

/-- The token regex of the tales scanner: a maximal run of plain characters,
else a maximal run of whitespace, else one single character. -/
def nextToken (cs : List Char) : Option (List Char) :=
  match cs with
  | [] => none
  | c :: _ =>
    if plainChar c then some (cs.takeWhile plainChar)
    else if jsSpace c then some (cs.takeWhile jsSpace)
    else some [c]

/-- Fetch the next token and advance the scan position past it. -/
def readToken (st : PState) : Option (List Char × PState) :=
  match nextToken (st.exp.drop st.pos) with
  | none => none
  | some tok => some (tok, { st with pos := st.pos + tok.length })

/-- The class tested by the statement-boundary regex: an opening paren, a
quote, a dollar sign or a word character signals the start of a statement. -/
def startsStmtChar (c : Char) : Bool :=
  c = '(' || c = '\'' || c = '"' || c = '$' || wordChar c

/-- String.prototype.replace with the unanchored pattern of one-or-more
whitespace characters and no global flag: delete the first maximal
whitespace run of the string. -/
def removeFirstWsRun : List Char → List Char
  | [] => []
  | c :: rest =>
    if jsSpace c then rest.dropWhile jsSpace
    else c :: removeFirstWsRun rest

/-- String.prototype.replace with the end-anchored whitespace pattern:
delete trailing whitespace. -/
def rstripWs (cs : List Char) : List Char :=
  (cs.reverse.dropWhile jsSpace).reverse

/-- The local variables of the tales scanner loop: the parser state plus eos,
quoted, balanced, the token accumulator exp and the result array. -/
structure TalesScan where
  st : PState
  eos : Nat
  quoted : Option Char
  balanced : Int
  acc : List (List Char)
  result : List String
  deriving Repr

/-- The epilogue after the scanner loop breaks: push the pending tokens
(joined, right-trimmed) as a last alternative when any are pending, and fail
when no alternative at all was produced. -/
def finishScan (s : TalesScan) : Option (List String × PState) :=
  let res :=
    if s.acc.isEmpty then s.result
    else s.result ++ [String.mk (rstripWs s.acc.flatten)]
  if res.isEmpty then none else some (res, s.st)

/-- The outcome of the switch statement of one loop iteration: either a
continue statement, or fall-through to the post-switch code with the (possibly
extended or nulled) token. -/
inductive SwitchOut where
  | contLoop (s : TalesScan)
  | proceed (s : TalesScan) (tok : Option (List Char))

/-- The switch over the first character of the fetched token, translated case
by case from ExpressionParser.prototype.tales.  stA is the parser state after
the token was consumed. -/
def talesSwitch (s : TalesScan) (stA : PState) (tok : List Char) : SwitchOut :=
  let h := tok.headD ' '
  if h = '(' ∨ h = '{' ∨ h = '[' then
    let b := if s.quoted.isNone then s.balanced + 1 else s.balanced
    SwitchOut.proceed { s with st := stA, eos := 0, balanced := b } (some tok)
  else if h = ')' ∨ h = '}' ∨ h = ']' then
    let b := if s.quoted.isNone then s.balanced - 1 else s.balanced
    SwitchOut.proceed { s with st := stA, eos := 1, balanced := b } (some tok)
  else if h = '|' then
    if s.quoted.isNone ∧ s.balanced = 0 then
      match pstr stA ['|'] with
      | some stB =>
        SwitchOut.proceed { s with st := stB, eos := 0 } (some (tok ++ ['|']))
      | none =>
        let alt := String.mk (removeFirstWsRun s.acc.flatten)
        SwitchOut.contLoop
          { s with st := stA, eos := 0, result := s.result ++ [alt], acc := [] }
    else SwitchOut.proceed { s with st := stA, eos := 0 } (some tok)
  else if h = '\\' then
    let pr := pconsume stA 1
    SwitchOut.proceed { s with st := pr.fst, eos := 0 } (some (tok ++ pr.snd))
  else if h = '\'' ∨ h = '"' then
    match s.quoted with
    | none =>
      SwitchOut.proceed { s with st := stA, eos := 0, quoted := some h } (some tok)
    | some q =>
      if q = h then
        SwitchOut.proceed { s with st := stA, eos := 1, quoted := none } (some tok)
      else SwitchOut.proceed { s with st := stA, eos := 0 } (some tok)
  else if h = ';' ∨ h = ',' then
    if s.quoted.isNone ∧ s.balanced = 0 then
      SwitchOut.proceed
        { s with st := { stA with pos := stA.pos - 1 }, eos := 0 } none
    else SwitchOut.proceed { s with st := stA, eos := 0 } (some tok)
  else if h = ' ' ∨ h = '\t' then
    if s.acc.isEmpty then SwitchOut.contLoop { s with st := stA }
    else
      SwitchOut.proceed
        { s with st := stA, eos := if 0 < s.eos then 2 else s.eos } (some tok)
  else
    let e := if tok.any wordChar ∧ tok ≠ "new".toList then 1 else 0
    SwitchOut.proceed { s with st := stA, eos := e } (some tok)

/-- The scanner loop of ExpressionParser.prototype.tales.  The fuel argument
only bounds the iteration count (every iteration either consumes input or
terminates); it is chosen large enough by the wrapper below.  Returns none
where the source returns null (after restoring the scan position), otherwise
the list of alternatives and the final parser state. -/
def talesGo : Nat → TalesScan → Option (List String × PState)
  | 0, _ => none
  | Nat.succ fuel, s =>
    match readToken s.st with
    | none =>
      if s.quoted.isSome ∨ s.balanced ≠ 0 then none else finishScan s
    | some (tok, stA) =>
      if s.quoted = none ∧ s.balanced = 0 ∧ 1 < s.eos ∧
          startsStmtChar (tok.headD ' ') = true then
        finishScan { s with st := { stA with pos := stA.pos - tok.length } }
      else
        match talesSwitch s stA tok with
        | SwitchOut.contLoop s1 => talesGo fuel s1
        | SwitchOut.proceed s1 none =>
          if s1.quoted.isSome ∨ s1.balanced ≠ 0 then none else finishScan s1
        | SwitchOut.proceed s1 (some t) =>
          if 0 < s1.eos ∧ s1.balanced < 0 then
            finishScan { s1 with st := { s1.st with pos := s1.st.pos - t.length } }
          else talesGo fuel { s1 with acc := s1.acc ++ [t] }

/-- ExpressionParser.prototype.tales.  On failure the scan position is
restored to where the call started (the source seeks back to pos). -/
def ptales (st : PState) : Option (List String) × PState :=
  let scan0 : TalesScan :=
    { st := st, eos := 0, quoted := none, balanced := 0, acc := [], result := [] }
  match talesGo (st.exp.length + 1) scan0 with
  | none => (none, st)
  | some (res, st1) => (some res, st1)

/-- Build a parser over a string, as new ExpressionParser(txt) does. -/
def mkPState (txt : String) : PState :=
  { exp := txt.toList, pos := 0 }

-- ---------------------------------------------------------------------------
-- interpolate (DomTal.prototype.interpolate, DomTal.js lines 700-735)
-- ---------------------------------------------------------------------------

/-- The collaborators interpolate relies on: the tales evaluator for the
parsed expression chains, and the DOM serializer (append the cloned fragment
to a scratch div and read innerHTML) for object-typed values. -/
structure InterpEnv where
  evalT : List String → Except TalesErr JSVal
  htmlOf : JSVal → Except TalesErr String

/-- typeof value === "object" for our value model (null and the sentinel
objects included, functions excluded). -/
def typeofObject : JSVal → Bool
  | JSVal.jsNull => true
  | JSVal.nothingS => true
  | JSVal.defaultS => true
  | JSVal.obj _ => true
  | _ => false

/-- The while loop of DomTal.prototype.interpolate: consume the run of
non-dollar characters, then try to match an interpolation opener; when the
opener does not match at the scan position (for instance because a dollar
sign directly precedes it), two raw characters are consumed verbatim instead.
On a match the expression chain is parsed and evaluated; a NOTHING or
undefined result contributes no output, an object result is serialized, any
other result is string-coerced; the closing brace is then skipped when
present. -/
def interpGo (env : InterpEnv) : Nat → PState → List String → Except TalesErr String
  | 0, _, _ => Except.error (TalesErr.evalErr "fuel exhausted")
  | Nat.succ fuel, st, out =>
    if st.pos < st.exp.length then
      let chunk := (st.exp.drop st.pos).takeWhile (fun c => c ≠ '$')
      let st1 : PState :=
        if chunk.isEmpty then st else { st with pos := st.pos + chunk.length }
      let out1 := if chunk.isEmpty then out else out ++ [String.mk chunk]
      match pstr st1 ['$', '{'] with
      | some st2 =>
        match ptales st2 with
        | (none, _) => Except.error TalesErr.invalidExpr
        | (some talesList, st3) =>
          match env.evalT talesList with
          | Except.error e => Except.error e
          | Except.ok value =>
            let pushed : Except TalesErr (List String) :=
              if value ≠ JSVal.nothingS ∧ value ≠ JSVal.undef then
                if typeofObject value then
                  match env.htmlOf value with
                  | Except.error e => Except.error e
                  | Except.ok h => Except.ok (out1 ++ [h])
                else Except.ok (out1 ++ [jsToString value])
              else Except.ok out1
            match pushed with
            | Except.error e => Except.error e
            | Except.ok out2 =>
              let st4 := match pstr st3 ['}'] with
                | some s => s
                | none => st3
              interpGo env fuel st4 out2
      | none =>
        let pr := pconsume st1 2
        interpGo env fuel pr.fst (out1 ++ [String.mk pr.snd])
    else Except.ok (String.join out)

/-- DomTal.prototype.interpolate over a text. -/
def interpolate (env : InterpEnv) (txt : String) : Except TalesErr String :=
  interpGo env (txt.length + 1) (mkPState txt) []

-- ---------------------------------------------------------------------------
-- condition processor (DomTal.js lines 1404-1430) and its interpretation by
-- render (DomTal.js lines 1005-1055)
-- ---------------------------------------------------------------------------

/-- The values the condition processor can return: true (keep the node and
recurse) or null (remove the node). -/
inductive ProcReturn where
  | retTrue
  | retNull
  deriving DecidableEq, Repr

/-- What render does to the node afterwards. -/
inductive NodeOutcome where
  | removedMarker
  | kept
  deriving DecidableEq, Repr

/-- The condition processor.  The expression text is tokenized; when that
fails, value stays undefined.  The tales evaluation runs inside try/catch and
any thrown error is replaced by the value false.  A function-typed value is
invoked (also inside try/catch) and coerced to a boolean.  The processor
returns true for a truthy value and null otherwise; its own result type is
Except so that a thrown error could be expressed, making it a theorem, not a
typing accident, that none ever is. -/
def conditionProc (evalT : List String → Except TalesErr JSVal)
    (callFn : Nat → Except TalesErr JSVal) (expText : String) :
    Except TalesErr ProcReturn :=
  let talesOpt := (ptales (mkPState expText)).fst
  let value : JSVal :=
    match talesOpt with
    | none => JSVal.undef
    | some ts =>
      match evalT ts with
      | Except.ok v => v
      | Except.error _ => JSVal.bool false
  let value : JSVal :=
    match value with
    | JSVal.func id =>
      match callFn id with
      | Except.ok v => JSVal.bool (truthy v)
      | Except.error _ => JSVal.bool false
    | v => v
  Except.ok (if truthy value then ProcReturn.retTrue else ProcReturn.retNull)

/-- How render interprets the return value of the condition processor: null
means the node is replaced by an inert marker comment with recursion
suppressed; true means the node is kept and its children recursed into. -/
def applyConditionReturn : ProcReturn → NodeOutcome
  | ProcReturn.retTrue => NodeOutcome.kept
  | ProcReturn.retNull => NodeOutcome.removedMarker

/-- The full render step for a node carrying only a condition attribute. -/
def renderCondition (evalT : List String → Except TalesErr JSVal)
    (callFn : Nat → Except TalesErr JSVal) (expText : String) :
    Except TalesErr NodeOutcome :=
  (conditionProc evalT callFn expText).map applyConditionReturn

-- ---------------------------------------------------------------------------
-- DOM heap, deep clone and run (DomTal.prototype.run, DomTal.js lines
-- 1231-1247)
-- ---------------------------------------------------------------------------

/-- A stored DOM node: its payload (tag or text) and the heap indices of its
children. -/
structure NodeRec where
  payload : String
  kids : List Nat
  deriving DecidableEq, Repr

/-- The node heap: nodes are identified by their index, allocation appends. -/
abbrev Heap := List NodeRec

/-- A pure value tree, the read-back of a heap subtree. -/
inductive DTree where
  | node (payload : String) (kids : List DTree)

/-- Read the subtree rooted at a heap index as a value tree; the fuel bounds
the depth (none when the fuel runs out or an index dangles). -/
def readKidsWith (readT : Heap → Nat → Option DTree) (h : Heap) :
    List Nat → Option (List DTree)
  | [] => some []
  | i :: rest =>
    match readT h i, readKidsWith readT h rest with
    | some t, some ts => some (t :: ts)
    | _, _ => none

def readTree : Nat → Heap → Nat → Option DTree
  | 0, _, _ => none
  | Nat.succ fuel, h, id =>
    match h.get? id with
    | none => none
    | some r => (readKidsWith (readTree fuel) h r.kids).map (DTree.node r.payload)

-- Write a value tree into the heap, appending fresh nodes (children first)
-- and returning the extended heap with the root index.
mutual
/-- Write one tree into the heap at fresh indices. -/
def writeTree (h : Heap) : DTree → Heap × Nat
  | DTree.node p ks =>
    let pr := writeKids h ks
    (pr.fst ++ [{ payload := p, kids := pr.snd }], pr.fst.length)
def writeKids (h : Heap) : List DTree → Heap × List Nat
  | [] => (h, [])
  | t :: ts =>
    let pr1 := writeTree h t
    let pr2 := writeKids pr1.fst ts
    (pr2.fst, pr1.snd :: pr2.snd)
end

/-- node.cloneNode(true): materialise the subtree and write a disjoint fresh
copy of it into the heap. -/
def cloneNodeDeep (fuel : Nat) (h : Heap) (id : Nat) : Option (Heap × Nat) :=
  (readTree fuel h id).map (writeTree h)

/-- All heap indices visitable from a root by following children, with fuel
bounding the depth. -/
def reachFrom : Nat → Heap → Nat → List Nat
  | 0, _, id => [id]
  | Nat.succ fuel, h, id =>
    id :: (match h.get? id with
           | none => []
           | some r => (r.kids.map (reachFrom fuel h)).flatten)

/-- Every stored child index points inside the heap. -/
def closedHeap (h : Heap) : Prop :=
  ∀ r ∈ h, ∀ k ∈ r.kids, k < h.length

/-- The engine state that run touches: the stored template root in this.tpl,
the node heap, and the variable stack. -/
structure RunState where
  heap : Heap
  tpl : Nat
  stack : List FrameVal

/-- DomTal.prototype.run: optionally seed the data through set, deep-clone
the stored template fragment, then hand the clone to processing.  The
processing pass (this.process on the clone) is abstracted into processFn,
its in-place DOM mutation becoming a heap transformation. -/
def runTpl (processFn : Heap → Nat → Heap) (fuel : Nat) (st : RunState)
    (data : Option FrameVal) : Option (RunState × Nat) :=
  let stack1 :=
    match data with
    | some d => setOneArg st.stack d
    | none => st.stack
  match cloneNodeDeep fuel st.heap st.tpl with
  | none => none
  | some (h1, root) =>
    some ({ st with heap := processFn h1 root, stack := stack1 }, root)

-- ---------------------------------------------------------------------------
-- Theorems
-- ---------------------------------------------------------------------------

/-- One unrolling of the alternation loop, expressed through the per-
alternative classification. -/
theorem talesLoop_cons (env : ModEnv) (e : String) (rest : List String)
    (result : JSVal) (error : Option TalesErr) :
    talesLoop env (e :: rest) result error =
      (match altStep env e with
       | AltStep.sentinel v => Except.ok v
       | AltStep.fatal er => Except.error er
       | AltStep.raised er => talesLoop env rest result (some er)
       | AltStep.value v =>
         if truthy v then Except.ok v else talesLoop env rest v error) := by
  by_cases h1 : jsTrim e = "default"
  · simp [talesLoop, altStep, h1]
  · by_cases h2 : jsTrim e = "nothing"
    · simp [talesLoop, altStep, h1, h2]
    · cases hm : matchModName e.data with
      | none =>
        cases hd : env.defMod e with
        | error er => simp [talesLoop, altStep, h1, h2, String.toList, hm, hd]
        | ok v => simp [talesLoop, altStep, h1, h2, String.toList, hm, hd]
      | some pr =>
        obtain ⟨m, tail⟩ := pr
        cases hmm : env.mods m with
        | none => simp [talesLoop, altStep, h1, h2, String.toList, hm, hmm]
        | some md =>
          cases hmd : md tail with
          | error er => simp [talesLoop, altStep, h1, h2, String.toList, hm, hmm, hmd]
          | ok v => simp [talesLoop, altStep, h1, h2, String.toList, hm, hmm, hmd]

/-- The loop ignores its accumulators up to the first truthy alternative. -/
theorem talesLoop_first_truthy (env : ModEnv) (pre : List String) (e : String)
    (post : List String) (v : JSVal)
    (hpre : ∀ x ∈ pre,
      (∃ w, altStep env x = AltStep.value w ∧ truthy w = false) ∨
      (∃ er, altStep env x = AltStep.raised er))
    (he : altStep env e = AltStep.value v) (hv : truthy v = true) :
    ∀ (result : JSVal) (error : Option TalesErr),
      talesLoop env (pre ++ e :: post) result error = Except.ok v := by
  induction pre with
  | nil =>
    intro result error
    rw [List.nil_append, talesLoop_cons, he]
    simp [hv]
  | cons x pre ih =>
    intro result error
    have hx := hpre x (by simp)
    have hpre2 : ∀ y ∈ pre,
        (∃ w, altStep env y = AltStep.value w ∧ truthy w = false) ∨
        (∃ er, altStep env y = AltStep.raised er) :=
      fun y hy => hpre y (by simp [hy])
    rw [List.cons_append, talesLoop_cons]
    rcases hx with ⟨w, hw, hwf⟩ | ⟨er, her⟩
    · rw [hw]
      simp only [hwf, if_false, Bool.false_eq_true]
      exact ih hpre2 w error
    · rw [her]
      exact ih hpre2 result (some er)

/-- C1 (corrected).  The claim said the first alternative with a defined
value wins even when falsy, so that the chain ZERO-then-ONE yields 0.  The
loop in fact breaks only on a truthy value (the source tests if result):
the amended statement proved here is that the result is the value of the
first alternative whose modifier invocation yields a truthy value, earlier
alternatives being allowed to raise or to produce falsy values that are
passed over. -/
theorem tales_first_truthy_wins (env : ModEnv) (pre : List String) (e : String)
    (post : List String) (v : JSVal)
    (hpre : ∀ x ∈ pre,
      (∃ w, altStep env x = AltStep.value w ∧ truthy w = false) ∨
      (∃ er, altStep env x = AltStep.raised er))
    (he : altStep env e = AltStep.value v) (hv : truthy v = true) :
    tales env (pre ++ e :: post) = Except.ok v := by
  have hne : (pre ++ e :: post).isEmpty = false := by
    cases pre <;> simp [List.isEmpty]
  simp only [tales, hne, Bool.false_eq_true, if_false]
  exact talesLoop_first_truthy env pre e post v hpre he hv JSVal.undef none

/-- Witness for C1: in the chain ZERO-then-ONE the falsy 0 of the first
alternative is passed over and the truthy 1 of the second wins. -/
theorem tales_first_truthy_wins_witness :
    tales litEnv ["0", "1"] = Except.ok (JSVal.num 1) :=
  tales_first_truthy_wins litEnv ["0"] "1" [] (JSVal.num 1)
    (by
      intro x hx
      have hx0 : x = "0" := by simpa using hx
      subst hx0
      exact Or.inl ⟨JSVal.num 0, by decide, by decide⟩)
    (by decide) (by decide)

/-- C1 counterexample: the chain ZERO-then-ONE evaluates to 1, not to the 0
the claim requires. -/
theorem tales_zero_one_cex :
    tales litEnv ["0", "1"] = Except.ok (JSVal.num 1) ∧
    (Except.ok (JSVal.num 1) : Except TalesErr JSVal) ≠
      Except.ok (JSVal.num 0) := by
  constructor
  · decide
  · decide

/-- C2 (code_bug).  DomTal.prototype.set called with a name and a value is
documented to bind the name, but executes stack[len-1] = value, discarding
the name and replacing the whole innermost frame: afterwards get of the name
falls through to the default while the properties of the value leak in as
top-level bindings. -/
theorem set_two_args_replaces_frame :
    setTwoArgs [FrameVal.objFrame []] "user"
        (FrameVal.objFrame [("firstname", JSVal.str "Joe")]) =
      [FrameVal.objFrame [("firstname", JSVal.str "Joe")]] ∧
    getVar (setTwoArgs [FrameVal.objFrame []] "user"
        (FrameVal.objFrame [("firstname", JSVal.str "Joe")]))
        "user" JSVal.undef = Except.ok JSVal.undef ∧
    getVar (setTwoArgs [FrameVal.objFrame []] "user"
        (FrameVal.objFrame [("firstname", JSVal.str "Joe")]))
        "firstname" JSVal.undef = Except.ok (JSVal.str "Joe") := by
  refine ⟨?_, ?_, ?_⟩ <;> decide

/-- C3 (corrected).  The amended statement: a dollar sign directly before an
interpolation opener prevents the expression from being parsed or evaluated,
but the text is emitted verbatim, with both dollar signs kept.  The equality
holds for every evaluator and serializer, so neither is ever consulted. -/
theorem interpolate_escape_keeps_text (env : InterpEnv) :
    interpolate env "$${foo}" = Except.ok "$${foo}" := rfl

/-- C3 counterexample: the claim demands the interpolation of the escaped
text be the string with a single leading dollar sign, but the code yields the
input unchanged, with both dollar signs. -/
theorem interpolate_escape_cex :
    interpolate
      { evalT := fun _ => Except.error (TalesErr.evalErr "evaluated"),
        htmlOf := fun _ => Except.error (TalesErr.evalErr "serialized") }
      "$${foo}" = Except.ok "$${foo}" ∧
    ("$${foo}" : String) ≠ "${foo}" := by
  exact ⟨rfl, by decide⟩

/-- C4 (code_bug).  For a one-element collection the meta object during the
single iteration (index 0 = N-1) carries end = false, because the loop
initialises end to (len === 0) and only corrects it from the second
iteration onward; the processor documentation states end is true on the last
item.  For longer collections the flag is correct, as the length-3 conjuncts
show. -/
theorem repeat_end_flag_bug :
    (metaAt 1 0).endFlag = false ∧
    (metaAt 1 0).index = 0 ∧ (metaAt 1 0).start = true ∧
    (metaAt 1 0).length = 1 ∧
    (metaAt 3 2).endFlag = true ∧ (metaAt 3 0).endFlag = false ∧
    (metaAt 3 1).endFlag = false := by
  decide

/-- C5 (code_bug).  Re-registering a processor name corrupts the registry:
removeByName splices _items at the literal index _map[1] instead of _map[i]
and never compacts the surviving indices, so after registering A then B and
re-registering A, iteration visits the new A twice and B never; B is gone
from the item store and a stale first registration of A lingers there. -/
theorem wlist_reregister_corrupts :
    (registerProc emptyWList "A" 1 100).bind
        (fun w => (registerProc w "B" 2 200).bind
          (fun w2 => registerProc w2 "A" 3 100)) =
      Except.ok
        { items := [{ procname := "A", tag := 1 }, { procname := "A", tag := 3 }],
          weights := [100, 200], wmap := [1, 1] } ∧
    Except.map WList.iterNames
      ((registerProc emptyWList "A" 1 100).bind
        (fun w => (registerProc w "B" 2 200).bind
          (fun w2 => registerProc w2 "A" 3 100))) =
      Except.ok [some "A", some "A"] ∧
    (some "B") ∉ [some "A", some "A"] := by
  refine ⟨?_, ?_, ?_⟩ <;> decide

/-- C6 (corrected).  The amended statement: process pushes one frame, runs
render and pops one frame, so the stack length is restored whenever render
returns normally and preserves the length itself.  The exception case is
settled by the counterexample: no try/finally protects the pop. -/
theorem process_scope_balanced_on_normal_return
    (renderFn : List FrameVal → List FrameVal × Option TalesErr)
    (stack : List FrameVal)
    (hok : (renderFn (pushFrame stack)).snd = none)
    (hlen : (renderFn (pushFrame stack)).fst.length = (pushFrame stack).length) :
    (processNode renderFn stack).fst.length = stack.length := by
  simp only [processNode, popFrame]
  rw [hok]
  simp only
  rw [List.length_dropLast, hlen]
  simp [pushFrame]

/-- Witness for C6: a render pass that succeeds without touching the stack
leaves the stack length at its entry value. -/
theorem process_scope_balanced_witness :
    (processNode (fun st => (st, none)) [FrameVal.objFrame []]).fst.length = 1 :=
  process_scope_balanced_on_normal_return (fun st => (st, none))
    [FrameVal.objFrame []] rfl rfl

/-- C6 counterexample: when render throws (as a content processor over an
undefined expression does), the pop is skipped and the caller observes a
stack one frame longer than before the call, where the claim demands the
lengths be equal even under an exception. -/
theorem process_scope_leak_cex :
    (processNode (fun st => (st, some TalesErr.undefinedValue))
        [FrameVal.objFrame []]).fst.length = 2 ∧ (2 : Nat) ≠ 1 := by
  refine ⟨?_, ?_⟩ <;> decide

/-- C7 (corrected).  The amended statement: tokenizing the doubled-pipe
expression yields exactly one alternative, but the doubled pipe is kept
verbatim in it (two adjacent pipe characters, as the scanner re-appends the
second pipe to the token), not unwrapped to a single pipe. -/
theorem pipe_double_kept_verbatim :
    (ptales (mkPState "a || b")).fst = some ["a || b"] ∧
    "a || b".toList.count '|' = 2 := by
  refine ⟨?_, ?_⟩ <;> decide

/-- C7 counterexample: the single alternative produced for the doubled-pipe
expression contains two pipe characters, not the single literal pipe the
claim requires. -/
theorem pipe_unwrap_cex :
    (ptales (mkPState "a || b")).fst = some ["a || b"] ∧
    ¬ ("a || b".toList.count '|' = 1) := by
  refine ⟨?_, ?_⟩ <;> decide

/-- C8 (corrected).  The amended statement: an alternative whose text is the
lower-case keyword (with surrounding whitespace allowed) makes the evaluator
return the corresponding sentinel immediately, for every modifier
environment and every loop state, hence without invoking any modifier.  The
comparison is case-sensitive, as the counterexample shows: the keyword
regexes carry no ignore-case flag. -/
theorem keyword_sentinels_return_immediately (env : ModEnv) (e : String)
    (rest : List String) (result : JSVal) (error : Option TalesErr) :
    (jsTrim e = "default" →
      talesLoop env (e :: rest) result error = Except.ok JSVal.defaultS) ∧
    (jsTrim e = "nothing" →
      talesLoop env (e :: rest) result error = Except.ok JSVal.nothingS) := by
  constructor <;> intro h <;> simp [talesLoop, h]

/-- Witness for C8: the keyword with surrounding blanks, in first position of
a longer chain, under the concrete literal environment. -/
theorem keyword_sentinels_witness :
    talesLoop litEnv [" default ", "1"] JSVal.undef none =
      Except.ok JSVal.defaultS :=
  (keyword_sentinels_return_immediately litEnv " default " ["1"]
    JSVal.undef none).1 (by decide)

/-- C8 counterexample: the capitalised keyword is not recognised — the
evaluator falls through to the default modifier and the chain ends in an
error instead of the DEFAULT sentinel the claim requires for a
case-insensitive comparison. -/
theorem keyword_case_cex :
    tales litEnv ["Default"] = Except.error (TalesErr.evalErr "Default") ∧
    (Except.error (TalesErr.evalErr "Default") : Except TalesErr JSVal) ≠
      Except.ok JSVal.defaultS := by
  refine ⟨?_, ?_⟩ <;> decide

/-- C9 (confirmed).  The condition processor never lets an evaluation error
escape: its result is always an ordinary return value, and whenever the
expression text parses and its evaluation raises, the processor returns null
so that render replaces the node with an inert marker and does not recurse —
exactly the documented lenient policy. -/
theorem condition_error_removes_node
    (evalT : List String → Except TalesErr JSVal)
    (callFn : Nat → Except TalesErr JSVal) (expText : String) :
    (∃ o, renderCondition evalT callFn expText = Except.ok o) ∧
    (∀ ts e, (ptales (mkPState expText)).fst = some ts →
      evalT ts = Except.error e →
      renderCondition evalT callFn expText =
        Except.ok NodeOutcome.removedMarker) := by
  constructor
  · exact ⟨_, rfl⟩
  · intro ts e hts he
    unfold renderCondition conditionProc
    rw [hts]
    simp [he, truthy, applyConditionReturn, Except.map]

/-- Witness for C9: the spec example, a condition over a path whose head is
unbound; the evaluation raises and the node outcome is removal. -/
theorem condition_error_removes_node_witness :
    renderCondition (fun _ => Except.error (TalesErr.evalErr "missing"))
        (fun _ => Except.ok JSVal.undef) "missing.path" =
      Except.ok NodeOutcome.removedMarker :=
  (condition_error_removes_node
      (fun _ => Except.error (TalesErr.evalErr "missing"))
      (fun _ => Except.ok JSVal.undef) "missing.path").2
    ["missing.path"] (TalesErr.evalErr "missing") (by decide) rfl

-- Freshness of writeTree / writeKids: the input heap is preserved as an
-- initial segment, the returned indices are fresh, and every appended node
-- only points at fresh indices.
mutual
/-- writeTree extends the heap, returns a fresh in-range root, and all nodes
it appends have their children in the fresh region. -/
theorem writeTree_spec (h : Heap) (t : DTree) :
    (∃ ext, (writeTree h t).fst = h ++ ext) ∧
    h.length ≤ (writeTree h t).snd ∧
    (writeTree h t).snd < (writeTree h t).fst.length ∧
    (∀ j r, h.length ≤ j → (writeTree h t).fst.get? j = some r →
      ∀ k ∈ r.kids, h.length ≤ k ∧ k < (writeTree h t).fst.length) := by
  cases t with
  | node p ks =>
    obtain ⟨⟨ext0, hext⟩, hids, hreg⟩ := writeKids_spec h ks
    simp only [writeTree]
    have hlen : h.length ≤ (writeKids h ks).fst.length := by
      rw [hext]; simp
    refine ⟨⟨ext0 ++ [{ payload := p, kids := (writeKids h ks).snd }], ?_⟩,
      hlen, by simp, ?_⟩
    · rw [hext, List.append_assoc]
    · intro j r hj hget k hk
      rcases Nat.lt_trichotomy j (writeKids h ks).fst.length with hlt | heq | hgt
      · rw [List.get?_append hlt] at hget
        obtain ⟨hk1, hk2⟩ := hreg j r hj hget k hk
        exact ⟨hk1, by simp; omega⟩
      · subst heq
        rw [List.get?_concat_length] at hget
        cases hget
        obtain ⟨hk1, hk2⟩ := hids k hk
        exact ⟨hk1, by simp; omega⟩
      · have hnone : ((writeKids h ks).fst ++
            [({ payload := p, kids := (writeKids h ks).snd } : NodeRec)]).get? j
              = none := by
          apply List.get?_eq_none.mpr
          simp; omega
        rw [hnone] at hget
        cases hget
/-- writeKids extends the heap, returns fresh in-range indices, and all nodes
it appends have their children in the fresh region. -/
theorem writeKids_spec (h : Heap) (ts : List DTree) :
    (∃ ext, (writeKids h ts).fst = h ++ ext) ∧
    (∀ i ∈ (writeKids h ts).snd, h.length ≤ i ∧ i < (writeKids h ts).fst.length) ∧
    (∀ j r, h.length ≤ j → (writeKids h ts).fst.get? j = some r →
      ∀ k ∈ r.kids, h.length ≤ k ∧ k < (writeKids h ts).fst.length) := by
  cases ts with
  | nil =>
    simp only [writeKids]
    refine ⟨⟨[], by simp⟩, by simp, ?_⟩
    intro j r hj hget k _
    rw [List.get?_eq_none.mpr hj] at hget
    cases hget
  | cons t ts2 =>
    obtain ⟨⟨ext1, hext1⟩, hb1, hc1, hreg1⟩ := writeTree_spec h t
    obtain ⟨⟨ext2, hext2⟩, hids2, hreg2⟩ := writeKids_spec (writeTree h t).fst ts2
    simp only [writeKids]
    have hlen1 : h.length ≤ (writeTree h t).fst.length := by
      rw [hext1]; simp
    have hlen2 : (writeTree h t).fst.length ≤
        (writeKids (writeTree h t).fst ts2).fst.length := by
      rw [hext2]; simp
    refine ⟨⟨ext1 ++ ext2, by rw [hext2, hext1, List.append_assoc]⟩, ?_, ?_⟩
    · intro i hi
      rcases List.mem_cons.mp hi with hi0 | hirest
      · subst hi0
        exact ⟨hb1, Nat.lt_of_lt_of_le hc1 hlen2⟩
      · obtain ⟨hk1, hk2⟩ := hids2 i hirest
        exact ⟨Nat.le_trans hlen1 hk1, hk2⟩
    · intro j r hj hget k hk
      rcases Nat.lt_or_ge j (writeTree h t).fst.length with hlt | hge
      · rw [hext2, List.get?_append hlt] at hget
        obtain ⟨hk1, hk2⟩ := hreg1 j r hj hget k hk
        exact ⟨hk1, Nat.lt_of_lt_of_le hk2 hlen2⟩
      · obtain ⟨hk1, hk2⟩ := hreg2 j r hge hget k hk
        exact ⟨Nat.le_trans hlen1 hk1, hk2⟩
end

/-- Every index visitable from a root inside a region closed above a base is
itself at or above the base. -/
theorem reach_ge_base (base : Nat) (h1 : Heap)
    (hreg : ∀ j r, base ≤ j → h1.get? j = some r → ∀ k ∈ r.kids, base ≤ k) :
    ∀ (fuel root : Nat), base ≤ root → ∀ i ∈ reachFrom fuel h1 root, base ≤ i := by
  intro fuel
  induction fuel with
  | zero =>
    intro root hroot i hi
    simp only [reachFrom, List.mem_singleton] at hi
    exact hi ▸ hroot
  | succ fuel ih =>
    intro root hroot i hi
    simp only [reachFrom] at hi
    rcases List.mem_cons.mp hi with hi0 | hirest
    · exact hi0 ▸ hroot
    · cases hr : h1.get? root with
      | none => rw [hr] at hirest; cases hirest
      | some r =>
        rw [hr] at hirest
        obtain ⟨l, hl, hil⟩ := List.mem_flatten.mp hirest
        obtain ⟨k, hkmem, hkeq⟩ := List.mem_map.mp hl
        subst hkeq
        exact ih k (hreg root r hroot hr k hkmem) i hil

/-- Reading a list of children only depends on the per-index reads. -/
theorem readKidsWith_congr (rT rT2 : Heap → Nat → Option DTree) (h h2 : Heap)
    (ks : List Nat) (hpt : ∀ k ∈ ks, rT2 h2 k = rT h k) :
    readKidsWith rT2 h2 ks = readKidsWith rT h ks := by
  induction ks with
  | nil => rfl
  | cons k rest ih =>
    simp only [readKidsWith]
    rw [hpt k (by simp), ih (fun x hx => hpt x (by simp [hx]))]

/-- Reading a subtree of a closed heap is unchanged under any heap
modification that preserves all entries below the heap length. -/
theorem readTree_congr (fuel : Nat) : ∀ (h h2 : Heap), closedHeap h →
    (∀ i, i < h.length → h2.get? i = h.get? i) →
    ∀ id, id < h.length → readTree fuel h2 id = readTree fuel h id := by
  induction fuel with
  | zero => intro h h2 _ _ id _; rfl
  | succ fuel ih =>
    intro h h2 hc hagree id hid
    simp only [readTree]
    rw [hagree id hid]
    cases hr : h.get? id with
    | none => rfl
    | some r =>
      have hmem : r ∈ h := List.get?_mem hr
      have hkids := readKidsWith_congr (readTree fuel) (readTree fuel) h h2 r.kids
        (fun k hk => ih h h2 hc hagree k (hc r hmem k hk))
      simp [hkids]

/-- C10 (confirmed).  run hands the processing pass a deep clone of the
stored template: the clone occupies only freshly allocated nodes, so any
processing pass that rewrites only nodes it can reach from the clone root
(plus fresh allocations) leaves every original node intact; the stored
template root is unchanged and reads back as the identical tree, so each run
starts from the original, unprocessed template. -/
theorem run_preserves_template
    (processFn : Heap → Nat → Heap) (fuel : Nat) (st : RunState)
    (data : Option FrameVal)
    (hc : closedHeap st.heap) (htpl : st.tpl < st.heap.length)
    (h1 : Heap) (root : Nat)
    (hclone : cloneNodeDeep fuel st.heap st.tpl = some (h1, root))
    (hloc : ∀ i, i ∉ reachFrom fuel h1 root → i < h1.length →
      (processFn h1 root).get? i = h1.get? i)
    (st2 : RunState) (root2 : Nat)
    (hrun : runTpl processFn fuel st data = some (st2, root2)) :
    st2.tpl = st.tpl ∧
    readTree fuel st2.heap st.tpl = readTree fuel st.heap st.tpl := by
  unfold runTpl at hrun
  rw [hclone] at hrun
  obtain ⟨hst2, -⟩ := Prod.mk.inj (Option.some.inj hrun)
  obtain ⟨t, hread, hwrite⟩ : ∃ t, readTree fuel st.heap st.tpl = some t ∧
      writeTree st.heap t = (h1, root) := by
    unfold cloneNodeDeep at hclone
    cases hread : readTree fuel st.heap st.tpl with
    | none => rw [hread] at hclone; cases hclone
    | some t =>
      rw [hread] at hclone
      exact ⟨t, rfl, Option.some.inj hclone⟩
  obtain ⟨⟨ext, hext⟩, hbase, _, hreg⟩ := writeTree_spec st.heap t
  rw [hwrite] at hext hbase hreg
  simp only at hext hbase hreg
  have hreach : ∀ i ∈ reachFrom fuel h1 root, st.heap.length ≤ i :=
    reach_ge_base st.heap.length h1
      (fun j r hj hget k hk => (hreg j r hj hget k hk).1) fuel root hbase
  have hagree : ∀ i, i < st.heap.length →
      (processFn h1 root).get? i = st.heap.get? i := by
    intro i hi
    have hni : i ∉ reachFrom fuel h1 root := by
      intro hmem
      exact absurd hi (Nat.not_lt.mpr (hreach i hmem))
    have hlt1 : i < h1.length := by
      rw [hext]; simp; omega
    rw [hloc i hni hlt1, hext, List.get?_append hi]
  have hfinal := readTree_congr fuel st.heap (processFn h1 root) hc hagree
    st.tpl htpl
  rw [← hst2]
  exact ⟨rfl, hfinal⟩

/-- Witness for C10: a two-node template (a root with one child), a
processing pass that overwrites the clone root in place; the stored template
still reads back as the original tree afterwards. -/
theorem run_preserves_template_witness :
    ({ heap := [{ payload := "child", kids := [] },
                { payload := "root", kids := [0] },
                { payload := "child", kids := [] },
                { payload := "mutated", kids := [] }],
       tpl := 1,
       stack := [FrameVal.objFrame []] } : RunState).tpl =
      ({ heap := [{ payload := "child", kids := [] },
                  { payload := "root", kids := [0] }],
         tpl := 1, stack := [FrameVal.objFrame []] } : RunState).tpl ∧
    readTree 3
      ({ heap := [{ payload := "child", kids := [] },
                  { payload := "root", kids := [0] },
                  { payload := "child", kids := [] },
                  { payload := "mutated", kids := [] }],
         tpl := 1, stack := [FrameVal.objFrame []] } : RunState).heap 1 =
    readTree 3
      ({ heap := [{ payload := "child", kids := [] },
                  { payload := "root", kids := [0] }],
         tpl := 1, stack := [FrameVal.objFrame []] } : RunState).heap 1 := by
  refine run_preserves_template
    (fun h r => h.set r { payload := "mutated", kids := [] }) 3
    { heap := [{ payload := "child", kids := [] },
               { payload := "root", kids := [0] }],
      tpl := 1, stack := [FrameVal.objFrame []] }
    none
    (by simp only [closedHeap]; decide)
    (by decide)
    [{ payload := "child", kids := [] }, { payload := "root", kids := [0] },
     { payload := "child", kids := [] }, { payload := "root", kids := [2] }]
    3 rfl
    ?_ _ 3 rfl
  intro i hni hlt
  have hi3 : i ≠ 3 := by
    intro heq
    subst heq
    exact hni (by decide)
  have hlt4 : i < 4 := by simpa using hlt
  interval_cases i <;> first | rfl | exact absurd rfl hi3

end DomTalSpec
